import Mathlib

/-
Verification development for the xheap repository (src/heap.py).

The source defines `class Heap(list)` with a caller-supplied ordering
relation `self.cmp` and an auxiliary dictionary `self._indexes` mapping an
item to its position.  All structural repair is delegated to the pure-Python
reference implementation of the standard library module `heapq`
(`heapq._siftdown`, `heapq._siftup`, `heapq.heapify`), whose element
comparisons use the builtin `<` of the item type, not `self.cmp`.  Writes of
the form `self[key] = value` go through `Heap.__setitem__`, which first
records `self._indexes[value] = key` and then performs the list write; this
also applies to the writes performed inside the `heapq` sift routines, since
they receive the `Heap` object itself.  Plain `list.append` (used by `push`)
and `list.pop()` (used by `pop`) bypass `__setitem__` and touch only the
underlying list.

The embedding below models:
  - the Python dict `self._indexes` as an insertion-ordered association list
    (`dictFind`, `dictSet`, `dictPop`, `dictContains`, `buildIndexes`);
  - the heap object as a structure `Heap` with fields `seq` (the list
    contents) and `indexes` (the dict);
  - `heapq._siftdown` / `heapq._siftup` as `siftdown` / `siftup`, written
    with an explicit fuel argument that strictly bounds the number of loop
    iterations (`_siftdown`'s position strictly decreases, so `pos + 1`
    iterations suffice; `_siftup`'s position strictly increases below
    `endpos`, so `endpos + 1` iterations suffice), keeping every definition
    a structural recursion that the kernel can evaluate;
  - the item type's builtin `<` as an explicit parameter `lt`, and the
    heap's `self.cmp` as an explicit parameter `cmp` to the operations that
    read it (the relation is fixed at construction in the source);
  - Python exceptions as the type `Err`: `indexError` (list indexing /
    `list.pop` on empty, the spec's EmptyHeapError), `keyError`
    (`dict.pop` on a missing key, the spec's ItemNotFoundError) and
    `runtimeError` (the `RuntimeError` raised by `push` on a duplicate,
    the spec's DuplicateItemError).  Each operation returns its result or
    error together with the state of the heap when control returns to the
    caller, so that partial mutation before an exception is preserved.

Out-of-range reads `self[i]` that the source never performs on the paths
modelled here are represented by `List.getD` with a default; every indexing
step that can actually fail in the source (the emptiness checks of
`pop`/`replace`, the bounds check of `pop`'s vacated position) is modelled
explicitly as an `Err`.
-/

namespace XHeap

/-- Python exceptions that the source can raise: `IndexError` from list
indexing and `list.pop()` on an empty list (the spec's EmptyHeapError),
`KeyError` from `self._indexes.pop(item)` (the spec's ItemNotFoundError),
and the `RuntimeError` raised by `Heap.push` for a duplicate item (the
spec's DuplicateItemError). -/
inductive Err where
  | indexError : Err
  | keyError : Err
  | runtimeError : Err
deriving DecidableEq, Repr

variable {α : Type} [DecidableEq α] [Inhabited α]

/-- Lookup in the model of the Python dict `self._indexes`. -/
def dictFind : List (α × Nat) → α → Option Nat
  | [], _ => none
  | (k', v) :: t, k => if k' = k then some v else dictFind t k

/-- Membership test `item in self._indexes`. -/
def dictContains (d : List (α × Nat)) (k : α) : Bool :=
  (dictFind d k).isSome

/-- Python dict assignment `d[k] = v`: update the value in place if the key
is present, otherwise append the new binding (insertion order). -/
def dictSet : List (α × Nat) → α → Nat → List (α × Nat)
  | [], k, v => [(k, v)]
  | (k', v') :: t, k, v =>
    if k' = k then (k', v) :: t else (k', v') :: dictSet t k v

/-- Python `d.pop(k)` without a default: return the removed value (`none`
models the `KeyError` case) together with the remaining dict. -/
def dictPop : List (α × Nat) → α → Option Nat × List (α × Nat)
  | [], _ => (none, [])
  | (k', v') :: t, k =>
    if k' = k then (some v', t)
    else
      let r := dictPop t k
      (r.1, (k', v') :: r.2)

/-- The dict comprehension `{value: index for index, value in enumerate(self)}`
used by `Heap.heapify` (and hence by `Heap.__init__`). -/
def buildIndexes (l : List α) : List (α × Nat) :=
  l.enum.foldl (fun d p => dictSet d p.2 p.1) []

/-- The state of a `Heap` object: the contents of the underlying list and
the `_indexes` dict.  The ordering relation `self.cmp`, fixed at
construction in the source, is passed explicitly to the operations that
read it. -/
structure Heap (α : Type) where
  seq : List α
  indexes : List (α × Nat)

/-- `Heap.__setitem__`: record `self._indexes[value] = key`, then perform
the list write `self[key] = value`. -/
def setItem (h : Heap α) (key : Nat) (value : α) : Heap α :=
  { seq := h.seq.set key value, indexes := dictSet h.indexes value key }

/-- Read `self[i]`.  On the paths modelled here the index is always in
range; out-of-range reads that the source can actually perform are modelled
explicitly as `Err.indexError` at their call sites. -/
def getItem (h : Heap α) (i : Nat) : α :=
  h.seq.getD i default

/-- The loop of `heapq._siftdown(heap, startpos, pos)` (pure-Python
reference): while `pos > startpos`, compare `newitem` with the parent at
`(pos - 1) >> 1` under the builtin `<` and move the parent down into `pos`
when `newitem < parent`.  Returns the state and the final position; the
caller writes `newitem` there.  The position strictly decreases, so a fuel
of `pos + 1` is never exhausted. -/
def siftdownLoop (lt : α → α → Bool) :
    Nat → Heap α → Nat → Nat → α → Heap α × Nat
  | 0, h, _, pos, _ => (h, pos)
  | fuel + 1, h, startpos, pos, newitem =>
    if startpos < pos then
      let parentpos := (pos - 1) / 2
      let parent := getItem h parentpos
      if lt newitem parent then
        siftdownLoop lt fuel (setItem h pos parent) startpos parentpos newitem
      else (h, pos)
    else (h, pos)

/-- `heapq._siftdown(heap, startpos, pos)`: read `newitem = heap[pos]`, run
the bubble-up loop, then write `heap[pos] = newitem` at the final position
(the final write happens even when the loop never moved anything). -/
def siftdown (lt : α → α → Bool) (h : Heap α) (startpos pos : Nat) : Heap α :=
  let newitem := getItem h pos
  let r := siftdownLoop lt (pos + 1) h startpos pos newitem
  setItem r.1 r.2 newitem

/-- The loop of `heapq._siftup(heap, pos)` (pure-Python reference): while
the left child `2*pos + 1` is below `endpos`, pick the smaller child under
the builtin `<` (the right child when `not heap[childpos] < heap[rightpos]`),
move it up into `pos`, and descend.  Returns the state and the final
position.  The position strictly increases and stays below `endpos`, so a
fuel of `endpos + 1` is never exhausted. -/
def siftupLoop (lt : α → α → Bool) (endpos : Nat) :
    Nat → Heap α → Nat → Heap α × Nat
  | 0, h, pos => (h, pos)
  | fuel + 1, h, pos =>
    let childpos := 2 * pos + 1
    if childpos < endpos then
      let rightpos := childpos + 1
      let c :=
        if rightpos < endpos ∧ lt (getItem h childpos) (getItem h rightpos) = false
        then rightpos else childpos
      siftupLoop lt endpos fuel (setItem h pos (getItem h c)) c
    else (h, pos)

/-- `heapq._siftup(heap, pos)`: read `endpos = len(heap)` and
`newitem = heap[pos]`, slide the smaller-child chain up while descending to
a leaf, write `newitem` at the final position, then call
`_siftdown(heap, startpos, pos)` from there. -/
def siftup (lt : α → α → Bool) (h : Heap α) (pos : Nat) : Heap α :=
  let endpos := h.seq.length
  let startpos := pos
  let newitem := getItem h pos
  let r := siftupLoop lt endpos (endpos + 1) h pos
  let h3 := setItem r.1 r.2 newitem
  siftdown lt h3 startpos r.2

/-- `Heap.heapify`: rebuild `self._indexes` from the current list order,
then run `heapq.heapify(self)` (pure-Python reference:
`for i in reversed(range(n // 2)): _siftup(x, i)`). -/
def heapify (lt : α → α → Bool) (h : Heap α) : Heap α :=
  let h1 : Heap α := { h with indexes := buildIndexes h.seq }
  ((List.range (h1.seq.length / 2)).reverse).foldl
    (fun acc i => siftup lt acc i) h1

/-- `Heap.__init__(iterable, cmp)`: store the list contents, fix the
relation (passed explicitly as `cmp` to the operations below), and call
`self.heapify()`.  There is no duplicate-item check on this path. -/
def heapInit (lt : α → α → Bool) (iterable : List α) : Heap α :=
  heapify lt { seq := iterable, indexes := [] }

/-- `Heap.push(item)`: raise `RuntimeError` when `item in self._indexes`;
otherwise `self.append(item)` (a plain list append that does not touch
`_indexes`) followed by `self._siftdown(0, len(self) - 1)`.  Note that the
duplicate check consults `_indexes`, not the list contents, and that the
sift uses the builtin `<`, never `self.cmp`. -/
def push (lt : α → α → Bool) (h : Heap α) (item : α) :
    Except Err Unit × Heap α :=
  if dictContains h.indexes item then (Except.error Err.runtimeError, h)
  else
    let h1 : Heap α := { h with seq := h.seq ++ [item] }
    (Except.ok (), siftdown lt h1 0 (h1.seq.length - 1))

/-- `Heap.pop(index=0)`: `lastelt = super().pop()` (raises `IndexError` on
an empty heap, before any mutation; otherwise removes the last list element
without touching `_indexes`).  If `index == len(self)` return `lastelt`.
Otherwise read `returnitem = self[index]` (an out-of-range `index` raises
`IndexError` here, after the list already lost its last element), write
`self[index] = lastelt` through `__setitem__`, and choose the repair
direction: when `not index or self.cmp(self[(index - 1) >> 2], lastelt)`
run `_siftup(index)`, else `_siftdown(0, index)`.  The decision slot is
`(index - 1) >> 2`, i.e. `(index - 1) / 4`, exactly as in the source.
The entry of the popped item is never removed from `_indexes`. -/
def pop (cmp lt : α → α → Bool) (h : Heap α) (index : Nat) :
    Except Err α × Heap α :=
  if h.seq.isEmpty then (Except.error Err.indexError, h)
  else
    let lastelt := h.seq.getD (h.seq.length - 1) default
    let h1 : Heap α := { h with seq := h.seq.dropLast }
    if index = h1.seq.length then (Except.ok lastelt, h1)
    else if index < h1.seq.length then
      let returnitem := getItem h1 index
      let h2 := setItem h1 index lastelt
      if index == 0 || cmp (getItem h2 ((index - 1) / 4)) lastelt then
        (Except.ok returnitem, siftup lt h2 index)
      else
        (Except.ok returnitem, siftdown lt h2 0 index)
    else (Except.error Err.indexError, h1)

/-- `Heap.remove(item)`: `self.pop(self._indexes.pop(item))`.  The dict pop
raises `KeyError` (leaving everything unchanged) when the item has no entry
in `_indexes`; otherwise its entry is removed and the stored position is
handed to `pop`. -/
def remove (cmp lt : α → α → Bool) (h : Heap α) (item : α) :
    Except Err α × Heap α :=
  match dictPop h.indexes item with
  | (none, _) => (Except.error Err.keyError, h)
  | (some idx, d') => pop cmp lt { h with indexes := d' } idx

/-- `Heap.replace(item)`: `returnitem = self[0]` (raises `IndexError` on an
empty heap, before any mutation), then `self[0] = item` and `_siftup(0)`.
There is no duplicate-item check on this path and `self.cmp` is never
consulted. -/
def replace (lt : α → α → Bool) (h : Heap α) (item : α) :
    Except Err α × Heap α :=
  if h.seq.isEmpty then (Except.error Err.indexError, h)
  else
    let returnitem := getItem h 0
    let h1 := setItem h 0 item
    (Except.ok returnitem, siftup lt h1 0)

/-- `Heap.pushpop(item)`: when `self and self.cmp(self[0], item)`, swap
`item` with the top and `_siftup(0)`, returning the previous top; otherwise
return `item` with the heap untouched. -/
def pushpop (cmp lt : α → α → Bool) (h : Heap α) (item : α) : α × Heap α :=
  if !h.seq.isEmpty && cmp (getItem h 0) item then
    let old := getItem h 0
    let h1 := setItem h 0 item
    (old, siftup lt h1 0)
  else (item, h)

/-- `Heap.check_invariant()`: scan the non-root positions and require
`self.cmp(self[(index - 1) >> 1], self[index])` at each; the method raises
at the first violation and returns normally otherwise.  The source scans
from the last position backwards; the Boolean success value modelled here
does not depend on the scanning order. -/
def check_invariant (cmp : α → α → Bool) (h : Heap α) : Bool :=
  ((List.range h.seq.length).drop 1).all fun index =>
    cmp (getItem h ((index - 1) / 2)) (getItem h index)

/-- The number of entries of `l` equal to `y` (the multiplicity of `y` in
the Sequence). -/
def countItem (y : α) (l : List α) : Nat :=
  (l.filter fun z => z = y).length

/-- The default relation of `Heap.__init__`: `lambda x, y: x <= y` on
integers. -/
def cmpLe (a b : Nat) : Bool := a ≤ b

/-- A max-heap relation `lambda x, y: x >= y` on integers, an instance of
the caller-supplied relations the source advertises. -/
def cmpGe (a b : Nat) : Bool := b ≤ a

/-- A total preorder with ties: compare integers by their decade only.
`cmpDecade 11 10` and `cmpDecade 10 11` both hold while `11 ≠ 10`. -/
def cmpDecade (a b : Nat) : Bool := a / 10 ≤ b / 10

/-- The builtin `<` of Python integers, used by the `heapq` sift
routines. -/
def ltNat (a b : Nat) : Bool := a < b

/- Helper lemmas: the sift routines permute the Sequence. -/

omit [Inhabited α] in
theorem length_setItem (h : Heap α) (k : Nat) (v : α) :
    (setItem h k v).seq.length = h.seq.length := by
  simp [setItem]

omit [DecidableEq α] [Inhabited α] in
theorem set_getD_self : ∀ (l : List α) (i : Nat) (d : α), i < l.length →
    l.set i (l.getD i d) = l
  | _ :: _, 0, _, _ => rfl
  | a :: t, i + 1, d, h => by
    simp only [List.set_cons_succ, List.getD_cons_succ]
    rw [set_getD_self t i d (by simpa using h)]

omit [DecidableEq α] [Inhabited α] in
theorem perm_getD_cons_set : ∀ (t : List α) (j : Nat) (x d : α),
    j < t.length → (t.getD j d :: t.set j x).Perm (x :: t)
  | b :: s, 0, x, d, _ => List.Perm.swap x b s
  | b :: s, j + 1, x, d, h => by
    simp only [List.getD_cons_succ, List.set_cons_succ]
    exact (List.Perm.swap b (s.getD j d) (s.set j x)).trans
      (((perm_getD_cons_set s j x d (by simpa using h)).cons b).trans
        (List.Perm.swap x b s))

omit [DecidableEq α] [Inhabited α] in
theorem perm_cons_set_exchange : ∀ (t : List α) (i : Nat) (x a : α),
    i < t.length → (x :: t.set i a).Perm (a :: t.set i x)
  | b :: s, 0, x, a, _ => List.Perm.swap a x s
  | b :: s, i + 1, x, a, h => by
    simp only [List.set_cons_succ]
    exact (List.Perm.swap b x (s.set i a)).trans
      (((perm_cons_set_exchange s i x a (by simpa using h)).cons b).trans
        (List.Perm.swap a b (s.set i x)))

omit [DecidableEq α] [Inhabited α] in
theorem set_set_perm : ∀ (l : List α) (i j : Nat) (x d : α),
    i < l.length → j < l.length → i ≠ j →
    ((l.set i (l.getD j d)).set j x).Perm (l.set i x)
  | a :: t, 0, 0, x, d, _, _, hij => absurd rfl hij
  | a :: t, 0, j + 1, x, d, _, hj, _ => by
    simp only [List.set_cons_zero, List.set_cons_succ, List.getD_cons_succ]
    exact perm_getD_cons_set t j x d (by simpa using hj)
  | a :: t, i + 1, 0, x, d, hi, _, _ => by
    simp only [List.set_cons_zero, List.set_cons_succ, List.getD_cons_zero]
    exact perm_cons_set_exchange t i x a (by simpa using hi)
  | a :: t, i + 1, j + 1, x, d, hi, hj, hij => by
    simp only [List.set_cons_succ, List.getD_cons_succ]
    exact (set_set_perm t i j x d (by simpa using hi) (by simpa using hj)
      (fun e => hij (by simp [e]))).cons a

theorem siftdownLoop_spec (lt : α → α → Bool) :
    ∀ (fuel : Nat) (h : Heap α) (startpos pos : Nat) (newitem : α),
    pos < h.seq.length →
    (siftdownLoop lt fuel h startpos pos newitem).1.seq.length = h.seq.length ∧
    (siftdownLoop lt fuel h startpos pos newitem).2 ≤ pos ∧
    ∀ x : α, ((siftdownLoop lt fuel h startpos pos newitem).1.seq.set
        (siftdownLoop lt fuel h startpos pos newitem).2 x).Perm (h.seq.set pos x)
  | 0, h, _, pos, _, _ => ⟨rfl, Nat.le_refl _, fun _ => List.Perm.refl _⟩
  | fuel + 1, h, startpos, pos, newitem, hpos => by
    by_cases hs : startpos < pos
    · by_cases hlt : lt newitem (getItem h ((pos - 1) / 2)) = true
      · have heq : siftdownLoop lt (fuel + 1) h startpos pos newitem =
            siftdownLoop lt fuel (setItem h pos (getItem h ((pos - 1) / 2)))
              startpos ((pos - 1) / 2) newitem := by
          simp [siftdownLoop, hs, hlt]
        have hpar : (pos - 1) / 2 < pos := by
          have h1 : (pos - 1) / 2 ≤ pos - 1 := Nat.div_le_self _ _
          omega
        have hpar' : (pos - 1) / 2 <
            (setItem h pos (getItem h ((pos - 1) / 2))).seq.length := by
          rw [length_setItem]; exact Nat.lt_trans hpar hpos
        obtain ⟨hl, hle, hperm⟩ := siftdownLoop_spec lt fuel
          (setItem h pos (getItem h ((pos - 1) / 2))) startpos ((pos - 1) / 2)
          newitem hpar'
        rw [heq]
        refine ⟨by rw [hl, length_setItem],
          Nat.le_trans hle (Nat.le_of_lt hpar), fun x => ?_⟩
        refine (hperm x).trans ?_
        exact set_set_perm h.seq pos ((pos - 1) / 2) x default hpos
          (Nat.lt_trans hpar hpos) (Nat.ne_of_gt hpar)
      · have heq : siftdownLoop lt (fuel + 1) h startpos pos newitem = (h, pos) := by
          simp [siftdownLoop, hs, hlt]
        rw [heq]
        exact ⟨rfl, Nat.le_refl _, fun _ => List.Perm.refl _⟩
    · have heq : siftdownLoop lt (fuel + 1) h startpos pos newitem = (h, pos) := by
        simp [siftdownLoop, hs]
      rw [heq]
      exact ⟨rfl, Nat.le_refl _, fun _ => List.Perm.refl _⟩

theorem siftdown_perm (lt : α → α → Bool) (h : Heap α) (startpos pos : Nat)
    (hpos : pos < h.seq.length) : (siftdown lt h startpos pos).seq.Perm h.seq := by
  obtain ⟨hl, hle, hperm⟩ :=
    siftdownLoop_spec lt (pos + 1) h startpos pos (getItem h pos) hpos
  show ((siftdownLoop lt (pos + 1) h startpos pos (getItem h pos)).1.seq.set
      (siftdownLoop lt (pos + 1) h startpos pos (getItem h pos)).2
      (getItem h pos)).Perm h.seq
  refine (hperm (getItem h pos)).trans ?_
  rw [getItem, set_getD_self h.seq pos default hpos]

theorem siftupLoop_spec (lt : α → α → Bool) (endpos : Nat) :
    ∀ (fuel : Nat) (h : Heap α) (pos : Nat),
    pos < h.seq.length → endpos ≤ h.seq.length →
    (siftupLoop lt endpos fuel h pos).1.seq.length = h.seq.length ∧
    (siftupLoop lt endpos fuel h pos).2 < h.seq.length ∧
    ∀ x : α, ((siftupLoop lt endpos fuel h pos).1.seq.set
        (siftupLoop lt endpos fuel h pos).2 x).Perm (h.seq.set pos x)
  | 0, h, pos, hpos, _ => ⟨rfl, hpos, fun _ => List.Perm.refl _⟩
  | fuel + 1, h, pos, hpos, hend => by
    by_cases hc : 2 * pos + 1 < endpos
    · have heq : siftupLoop lt endpos (fuel + 1) h pos =
          siftupLoop lt endpos fuel
            (setItem h pos (getItem h (if 2 * pos + 1 + 1 < endpos ∧
              lt (getItem h (2 * pos + 1)) (getItem h (2 * pos + 1 + 1)) = false
              then 2 * pos + 1 + 1 else 2 * pos + 1)))
            (if 2 * pos + 1 + 1 < endpos ∧
              lt (getItem h (2 * pos + 1)) (getItem h (2 * pos + 1 + 1)) = false
              then 2 * pos + 1 + 1 else 2 * pos + 1) := by
        simp only [siftupLoop]
        rw [if_pos hc]
      generalize hcv : (if 2 * pos + 1 + 1 < endpos ∧
          lt (getItem h (2 * pos + 1)) (getItem h (2 * pos + 1 + 1)) = false
          then 2 * pos + 1 + 1 else 2 * pos + 1) = c at heq
      have hcend : c < endpos := by
        rw [← hcv]; split
        · omega
        · exact hc
      have hcpos : pos < c := by
        rw [← hcv]; split <;> omega
      have hclen : c < h.seq.length := Nat.lt_of_lt_of_le hcend hend
      have hclen' : c < (setItem h pos (getItem h c)).seq.length := by
        rw [length_setItem]; exact hclen
      obtain ⟨hl, hlt2, hperm⟩ := siftupLoop_spec lt endpos fuel
        (setItem h pos (getItem h c)) c hclen'
        (by rw [length_setItem]; exact hend)
      rw [heq]
      refine ⟨by rw [hl, length_setItem], ?_, fun x => ?_⟩
      · rw [length_setItem] at hlt2; exact hlt2
      · refine (hperm x).trans ?_
        exact set_set_perm h.seq pos c x default hpos hclen (Nat.ne_of_lt hcpos)
    · have heq : siftupLoop lt endpos (fuel + 1) h pos = (h, pos) := by
        simp only [siftupLoop]
        rw [if_neg hc]
      rw [heq]
      exact ⟨rfl, hpos, fun _ => List.Perm.refl _⟩

theorem siftup_perm (lt : α → α → Bool) (h : Heap α) (pos : Nat)
    (hpos : pos < h.seq.length) : (siftup lt h pos).seq.Perm h.seq := by
  obtain ⟨hl, hlt2, hperm⟩ :=
    siftupLoop_spec lt h.seq.length (h.seq.length + 1) h pos hpos (Nat.le_refl _)
  show (siftdown lt
      (setItem (siftupLoop lt h.seq.length (h.seq.length + 1) h pos).1
        (siftupLoop lt h.seq.length (h.seq.length + 1) h pos).2 (getItem h pos))
      pos (siftupLoop lt h.seq.length (h.seq.length + 1) h pos).2).seq.Perm h.seq
  have hmid : (setItem (siftupLoop lt h.seq.length (h.seq.length + 1) h pos).1
      (siftupLoop lt h.seq.length (h.seq.length + 1) h pos).2
      (getItem h pos)).seq.Perm h.seq := by
    show ((siftupLoop lt h.seq.length (h.seq.length + 1) h pos).1.seq.set
        (siftupLoop lt h.seq.length (h.seq.length + 1) h pos).2
        (getItem h pos)).Perm h.seq
    refine (hperm (getItem h pos)).trans ?_
    rw [getItem, set_getD_self h.seq pos default hpos]
  refine (siftdown_perm lt _ pos _ ?_).trans hmid
  rw [show (setItem (siftupLoop lt h.seq.length (h.seq.length + 1) h pos).1
      (siftupLoop lt h.seq.length (h.seq.length + 1) h pos).2
      (getItem h pos)).seq.length = h.seq.length from hmid.length_eq]
  omega

theorem foldl_siftup_perm (lt : α → α → Bool) :
    ∀ (idxs : List Nat) (h : Heap α), (∀ i ∈ idxs, i < h.seq.length) →
    ((idxs.foldl (fun acc i => siftup lt acc i) h).seq).Perm h.seq
  | [], _, _ => List.Perm.refl _
  | i :: t, h, hmem => by
    have hi : i < h.seq.length := hmem i (List.mem_cons_self i t)
    have hstep := siftup_perm lt h i hi
    have hrest := foldl_siftup_perm lt t (siftup lt h i)
      (fun j hj => by rw [hstep.length_eq]; exact hmem j (List.mem_cons_of_mem i hj))
    exact hrest.trans hstep

theorem heapInit_perm (lt : α → α → Bool) (l : List α) :
    ((heapInit lt l).seq).Perm l := by
  show ((((List.range (l.length / 2)).reverse).foldl (fun acc i => siftup lt acc i)
    { seq := l, indexes := buildIndexes l } : Heap α).seq).Perm l
  exact foldl_siftup_perm lt ((List.range (l.length / 2)).reverse)
    { seq := l, indexes := buildIndexes l }
    (fun i hi => by
      have : i < l.length / 2 := by
        rw [List.mem_reverse, List.mem_range] at hi; exact hi
      have h2 : l.length / 2 ≤ l.length := Nat.div_le_self _ _
      exact Nat.lt_of_lt_of_le this h2)

/- Helper lemmas: `countItem` under permutation and consing. -/

omit [Inhabited α] in
theorem countItem_perm (y : α) {l l' : List α} (hp : l.Perm l') :
    countItem y l = countItem y l' :=
  (hp.filter fun z => z = y).length_eq

omit [Inhabited α] in
theorem countItem_cons (y a : α) (t : List α) :
    countItem y (a :: t) = (if a = y then 1 else 0) + countItem y t := by
  by_cases ha : a = y <;> simp [countItem, List.filter, ha, Nat.add_comm]

omit [Inhabited α] in
theorem countItem_pos_of_mem {y : α} : ∀ {l : List α}, y ∈ l → 1 ≤ countItem y l
  | a :: t, hm => by
    rcases List.mem_cons.mp hm with he | ht
    · rw [countItem_cons, if_pos he.symm]; omega
    · have := countItem_pos_of_mem ht
      rw [countItem_cons]; omega

omit [DecidableEq α] [Inhabited α] in
theorem getD_mem {l : List α} {i : Nat} (d : α) (hi : i < l.length) :
    l.getD i d ∈ l := by
  rw [List.getD_eq_getElem l d hi]
  exact List.getElem_mem hi

/- Claim theorems. -/

/-- Claim C1 (code_bug evidence): the claim states that after every
sequence of operations whose preconditions hold the heap invariant
`cmp(Sequence[(k-1)/2], Sequence[k])` holds, so `check_invariant`
succeeds.  The code violates this: on the valid min-heap
`[0, 10, 1, 11, 12, 2, 3]` under the default relation `x <= y`, `pop(3)`
moves the last element `3` into slot 3, decides the repair direction by
comparing against slot `(3 - 1) >> 2 = 0` (value `0`, which precedes `3`)
instead of the parent slot `(3 - 1) >> 1 = 1` (value `10`, which does not),
bubbles down instead of up, and leaves `heap[1] = 10 !<= heap[3] = 3`, so
`check_invariant` fails afterwards. -/
theorem C1_pop_breaks_invariant :
    check_invariant cmpLe (heapInit ltNat [0, 10, 1, 11, 12, 2, 3]) = true ∧
    (pop cmpLe ltNat (heapInit ltNat [0, 10, 1, 11, 12, 2, 3]) 3).1 =
      Except.ok 11 ∧
    check_invariant cmpLe
      (pop cmpLe ltNat (heapInit ltNat [0, 10, 1, 11, 12, 2, 3]) 3).2 =
      false :=
  ⟨rfl, rfl, rfl⟩

/-- Claim C2 (code_bug evidence): the claim states that after every
mutating operation the identity index and the Sequence are in sync, with no
desynchronization observable by a caller.  The code violates this:
`pop()` removes the last list element with a plain `list.pop()` and never
deletes the popped item's entry from `_indexes`.  After constructing
`Heap([1])` and popping its only element, the Sequence is empty while
`_indexes` still maps `1` to position `0`; the stale entry is observable
because `push(1)` then raises the duplicate-item error even though `1` is
not in the heap. -/
theorem C2_pop_leaves_stale_index_entry :
    (pop cmpLe ltNat (heapInit ltNat [1]) 0).2.seq = [] ∧
    dictFind (pop cmpLe ltNat (heapInit ltNat [1]) 0).2.indexes 1 = some 0 ∧
    (push ltNat (pop cmpLe ltNat (heapInit ltNat [1]) 0).2 1).1 =
      Except.error Err.runtimeError :=
  ⟨rfl, rfl, rfl⟩

/-- Claim C3 (code_bug evidence): the claim states that `pop(position)`
compares the relocated last element against the slot's former parent at
`(position - 1) / 2` to choose between bubbling down and bubbling up, and
that the chosen single repair restores the invariant.  The code instead
compares against slot `(position - 1) >> 2`, i.e. `(position - 1) / 4`.
For `pop(3)` on `[0, 10, 1, 11, 12, 2, 3]` the code's slot `(3 - 1) / 4 = 0`
holds `0`, which precedes the relocated `3`, so the code bubbles down,
while the claim's parent slot `(3 - 1) / 2 = 1` holds `10`, which does not
precede `3`, so the repair should have bubbled up; the heap invariant is
broken afterwards. -/
theorem C3_pop_decision_uses_wrong_parent_slot :
    (pop cmpLe ltNat (heapInit ltNat [0, 10, 1, 11, 12, 2, 3]) 3).2.seq =
      [0, 10, 1, 3, 12, 2] ∧
    cmpLe (getItem
      (pop cmpLe ltNat (heapInit ltNat [0, 10, 1, 11, 12, 2, 3]) 3).2
      ((3 - 1) / 4)) 3 = true ∧
    cmpLe (getItem
      (pop cmpLe ltNat (heapInit ltNat [0, 10, 1, 11, 12, 2, 3]) 3).2
      ((3 - 1) / 2)) 3 = false ∧
    check_invariant cmpLe
      (pop cmpLe ltNat (heapInit ltNat [0, 10, 1, 11, 12, 2, 3]) 3).2 =
      false :=
  ⟨rfl, rfl, rfl, rfl⟩

/-- Claim C4 (code_bug evidence): the claim states that construction
establishes the heap invariant with respect to the caller-supplied relation
`cmp` and that all ordering comparisons use `cmp`.  The code delegates
`heapify` (and every sift) to `heapq`, which compares with the builtin `<`
of the item type and never consults `self.cmp`.  Constructing a heap from
`[1, 2]` with the max-heap relation `x >= y` therefore yields the sequence
`[1, 2]` ordered by `<`, and `check_invariant` (which does use `cmp`)
fails immediately after construction. -/
theorem C4_heapify_ignores_custom_relation :
    (heapInit ltNat [1, 2]).seq = [1, 2] ∧
    check_invariant cmpGe (heapInit ltNat [1, 2]) = false :=
  ⟨rfl, rfl⟩

/-- Claim C5 (code_bug evidence): the claim states that `push(x)` raises
the duplicate-item error if and only if `x` is currently present.  The
"only if" direction fails: `pop()` leaves the popped item's entry in
`_indexes`, so after constructing `Heap([5])` and popping its only element
the heap is empty, yet `push(5)` raises the duplicate-item error and the
empty heap is left unchanged. -/
theorem C5_push_duplicate_error_for_absent_item :
    (pop cmpLe ltNat (heapInit ltNat [5]) 0).1 = Except.ok 5 ∧
    (pop cmpLe ltNat (heapInit ltNat [5]) 0).2.seq = [] ∧
    (push ltNat (pop cmpLe ltNat (heapInit ltNat [5]) 0).2 5).1 =
      Except.error Err.runtimeError ∧
    (push ltNat (pop cmpLe ltNat (heapInit ltNat [5]) 0).2 5).2.seq = [] :=
  ⟨rfl, rfl, rfl, rfl⟩

/-- Claim C6 (code_bug evidence): the claim states that repeatedly popping
the top yields a sequence consistent with the heap's relation: each popped
item is at least as good, under the relation, as every item remaining.  The
code orders the heap by the builtin `<`, not by `self.cmp`: on a heap built
from `[1, 2]` with the max-heap relation `x >= y`, the first `pop()`
returns `1` while `2` remains, and `cmpGe 1 2` is false — the popped item
is not at least as good as the remaining one under the heap's relation. -/
theorem C6_sorted_extraction_fails_for_max_heap :
    (pop cmpGe ltNat (heapInit ltNat [1, 2]) 0).1 = Except.ok 1 ∧
    (pop cmpGe ltNat (heapInit ltNat [1, 2]) 0).2.seq = [2] ∧
    cmpGe 1 2 = false :=
  ⟨rfl, rfl, rfl⟩

/-- Claim C7 counterexample: the claim states that whenever the pushed
item is at least as good as the current top under the relation
(`cmp(item, top)` true), `pushpop(item)` returns the item unchanged and
performs no mutation.  With the total preorder `cmpDecade` (compare
integers by decade), `cmpDecade 11 10` is true, yet on the heap `[10]` the
code's guard `cmp(self[0], item) = cmpDecade 10 11` is also true, so
`pushpop(11)` swaps: it returns the previous top `10`, not `11`, and the
heap's contents change from `[10]` to `[11]`. -/
theorem C7_pushpop_mutates_despite_good_item :
    cmpDecade 11 10 = true ∧
    (heapInit ltNat [10]).seq = [10] ∧
    (pushpop cmpDecade ltNat (heapInit ltNat [10]) 11).1 = 10 ∧
    (pushpop cmpDecade ltNat (heapInit ltNat [10]) 11).2.seq = [11] :=
  ⟨rfl, rfl, rfl, rfl⟩

/-- Claim C7 amended: `pushpop(item)` returns the item unchanged and
performs no mutation exactly under the code's guard being false, i.e. when
the heap is empty or the current top does not precede the item under the
relation (`cmp(top, item)` false); for relations that are antisymmetric on
the items involved this coincides with the claim's "item at least as good
as the top". -/
theorem C7_pushpop_noop (cmp lt : α → α → Bool) (h : Heap α) (item : α)
    (hcond : h.seq = [] ∨ cmp (getItem h 0) item = false) :
    pushpop cmp lt h item = (item, h) := by
  rcases hcond with he | hf
  · simp [pushpop, he]
  · simp [pushpop, hf]

/-- Witness for the amended claim C7 at a concrete input: on the empty
heap, `pushpop 7` returns `7` and the heap is untouched. -/
theorem C7_pushpop_noop_witness :
    pushpop cmpLe ltNat (heapInit ltNat ([] : List Nat)) 7 =
      (7, heapInit ltNat ([] : List Nat)) :=
  C7_pushpop_noop cmpLe ltNat (heapInit ltNat ([] : List Nat)) 7 (Or.inl rfl)

/-- Claim C8 (code_bug evidence): the claim states that `remove(x)` fails
with the item-not-found error exactly when `x` is not present, and that
failures leave the heap unmodified.  Because `pop()` leaves stale entries
in `_indexes`, `remove` can succeed on an absent item: after constructing
`Heap([1, 2])` and popping the top (`1`), the Sequence is `[2]` and `1` is
absent, yet `remove(1)` raises nothing — it consults the stale entry
`1 -> 0` and removes `2` instead, returning `2` and leaving the Sequence
empty. -/
theorem C8_remove_absent_item_mutates_heap :
    (pop cmpLe ltNat (heapInit ltNat [1, 2]) 0).2.seq = [2] ∧
    (remove cmpLe ltNat (pop cmpLe ltNat (heapInit ltNat [1, 2]) 0).2 1).1 =
      Except.ok 2 ∧
    (remove cmpLe ltNat (pop cmpLe ltNat (heapInit ltNat [1, 2]) 0).2 1).2.seq
      = [] :=
  ⟨rfl, rfl, rfl⟩

/-- Claim C9 counterexample: the claim states that construction fails with
the duplicate-item error whenever two input items are equal.  The code's
`__init__` performs no duplicate check and cannot fail: constructing from
`[1, 1]` succeeds, the Sequence keeps both equal items, and the identity
index holds a single entry mapping `1` to only one of its two positions. -/
theorem C9_construct_accepts_duplicates :
    (heapInit ltNat [1, 1]).seq = [1, 1] ∧
    (heapInit ltNat [1, 1]).indexes = [(1, 1)] :=
  ⟨rfl, rfl⟩

/-- Claim C9 amended: `construct(items, relation)` performs no duplicate
check and never fails; for every input collection, including collections
with equal items, it succeeds and the resulting Sequence is a permutation
of the input (duplicates retained). -/
theorem C9_construct_total_perm (lt : α → α → Bool) (l : List α) :
    ((heapInit lt l).seq).Perm l :=
  heapInit_perm lt l

/-- Claim C10 confirmed: `replace` performs no duplicate check and can
never raise the duplicate-item error, and on every heap that holds exactly
one copy of `y` at a position other than the top, `replace(y)` succeeds,
returns the previous top, and leaves the Sequence holding two items equal
to `y`. -/
theorem C10_replace_allows_duplicate (lt : α → α → Bool) (h : Heap α)
    (y : α) (p : Nat) (hp0 : p ≠ 0) (hp : p < h.seq.length)
    (hy : h.seq.getD p default = y) (hcount : countItem y h.seq = 1) :
    (∀ (h' : Heap α) (z : α),
      (replace lt h' z).1 ≠ Except.error Err.runtimeError) ∧
    (replace lt h y).1 = Except.ok (getItem h 0) ∧
    countItem y (replace lt h y).2.seq = 2 := by
  refine ⟨fun h' z => ?_, ?_⟩
  · unfold replace
    split <;> simp
  · rcases hseq : h.seq with - | ⟨a, t⟩
    · rw [hseq] at hp; simp at hp
    · rcases p with - | p'
      · exact absurd rfl hp0
      rw [hseq] at hy hp
      have hpt : p' < t.length := by simpa using hp
      have hyt : y ∈ t := by
        rw [List.getD_cons_succ] at hy
        rw [← hy]; exact getD_mem default hpt
      have hat : a ≠ y := by
        intro hay
        rw [hseq, countItem_cons, if_pos hay] at hcount
        have := countItem_pos_of_mem hyt
        omega
      have hct : countItem y t = 1 := by
        rw [hseq, countItem_cons, if_neg hat] at hcount
        omega
      have hne : h.seq.isEmpty = false := by rw [hseq]; rfl
      have hrepl : replace lt h y =
          (Except.ok (getItem h 0), siftup lt (setItem h 0 y) 0) := by
        unfold replace
        rw [hne]
        rfl
      rw [hrepl]
      refine ⟨rfl, ?_⟩
      have hlen : 0 < (setItem h 0 y).seq.length := by
        rw [length_setItem, hseq]; simp
      have hperm := siftup_perm lt (setItem h 0 y) 0 hlen
      rw [countItem_perm y hperm]
      show countItem y (h.seq.set 0 y) = 2
      rw [hseq, List.set_cons_zero, countItem_cons, if_pos rfl, hct]

/-- Witness for claim C10 at a concrete input: on the heap state with
Sequence `[1, 2, 3]`, `replace 3` (where `3` already sits at position 2)
returns the previous top `1` and leaves two copies of `3` in the
Sequence. -/
theorem C10_replace_allows_duplicate_witness :
    (replace ltNat (Heap.mk [1, 2, 3] []) 3).1 = Except.ok 1 ∧
    countItem 3 (replace ltNat (Heap.mk [1, 2, 3] []) 3).2.seq = 2 := by
  have h := C10_replace_allows_duplicate ltNat (Heap.mk [1, 2, 3] []) 3 2
    (by decide) (by decide) rfl rfl
  exact ⟨h.2.1, h.2.2⟩

end XHeap
